import Mathlib

/-!
Verification of the C-header-to-zig signature translator (src/parseh.cpp).

The development shallowly embeds the program: C strings become `List Char`,
the libclang `CXType` values consumed by the classifier become the inductive
`CType`, the cursor tree walked by `clang_visitChildren` becomes the nested
inductive `Node`, and the mutable `ParseH` struct becomes an explicit state
record threaded through the visitor.  Fatal `zig_panic` calls are modelled as
`none` / `Except.error`; `assert` failures in the parameter branch are the
distinguished error `VisitError.assertFail`.
-/

namespace Parseh

/-! ## String utilities (str_has_prefix, prefixes_stripped) -/

/-- Embedding of `str_has_prefix` (parseh.cpp:31): walks the prefix, matching
characters of `s` one by one; an exhausted prefix means success. -/
def str_has_prefix : List Char → List Char → Bool
  | _, [] => true
  | [], _ :: _ => false
  | c :: s, d :: p => if c = d then str_has_prefix s p else false

/-- The ordered candidate list of `prefixes_stripped` (parseh.cpp:47). -/
def qualifier_list : List (List Char) := ["struct ".data, "enum ".data, "const ".data]

/-- One pass of the `for` loop inside `prefixes_stripped`: find the first
candidate that is a prefix of `s` and drop it. -/
def strip_first_match : List (List Char) → List Char → Option (List Char)
  | [], _ => none
  | q :: qs, s =>
    if str_has_prefix s q then some (s.drop q.length) else strip_first_match qs s

/-- One `start_over` round of `prefixes_stripped` over the fixed candidates. -/
def strip_step (s : List Char) : Option (List Char) := strip_first_match qualifier_list s

/-- The `goto start_over` loop, driven by explicit fuel.  Every successful
round removes a non-empty prefix, so `s.length` rounds always suffice. -/
def strip_loop : Nat → List Char → List Char
  | 0, s => s
  | fuel + 1, s =>
    match strip_step s with
    | some rest => strip_loop fuel rest
    | none => s

/-- Embedding of `prefixes_stripped` (parseh.cpp:43): repeatedly strip the
first matching qualifier until none matches. -/
def prefixes_stripped (s : List Char) : List Char := strip_loop s.length s

theorem str_has_prefix_length {s q : List Char} (h : str_has_prefix s q = true) :
    q.length ≤ s.length := by
  induction q generalizing s with
  | nil => simp
  | cons d p ih =>
    cases s with
    | nil => simp [ str_has_prefix] at h
    | cons c s' =>
      simp only [ str_has_prefix] at h
      split at h
      · simpa using Nat.succ_le_succ (ih h)
      · exact absurd h (by simp)

theorem strip_first_match_shrinks {qs : List (List Char)} {s rest : List Char}
    (hne : ∀ q ∈ qs, q ≠ []) (h : strip_first_match qs s = some rest) :
    rest.length < s.length := by
  induction qs with
  | nil => simp [strip_first_match] at h
  | cons q qs' ih =>
    simp only [strip_first_match] at h
    split at h
    · rename_i hq
      have hle : q.length ≤ s.length := str_has_prefix_length hq
      have hq0 : 0 < q.length := by
        have : q ≠ [] := hne q (by simp)
        exact List.length_pos.mpr this
      have : rest = s.drop q.length := by
        injection h with h'
        exact h'.symm
      subst this
      simp only [List.length_drop]
      omega
    · exact ih (fun q hq => hne q (by simp [hq])) h

theorem strip_step_shrinks {s rest : List Char} (h : strip_step s = some rest) :
    rest.length < s.length := by
  refine strip_first_match_shrinks ?_ h
  intro q hq
  fin_cases hq <;> decide

theorem strip_loop_of_none {s : List Char} (h : strip_step s = none) (fuel : Nat) :
    strip_loop fuel s = s := by
  cases fuel with
  | zero => rfl
  | succ n => simp [strip_loop, h]

theorem strip_loop_reaches_fixpoint :
    ∀ fuel s, s.length ≤ fuel → strip_step (strip_loop fuel s) = none := by
  intro fuel
  induction fuel with
  | zero =>
    intro s hs
    have : s = [] := List.length_eq_zero.mp (Nat.le_zero.mp hs)
    subst this
    decide
  | succ n ih =>
    intro s hs
    cases h : strip_step s with
    | none => simp [strip_loop, h]
    | some rest =>
      have hlt : rest.length < s.length := strip_step_shrinks h
      have : rest.length ≤ n := by omega
      simpa [strip_loop, h] using ih rest this

theorem prefixes_stripped_fixpoint (s : List Char) :
    strip_step (prefixes_stripped s) = none :=
  strip_loop_reaches_fixpoint s.length s (Nat.le_refl _)

/-- C7: the name-cleaning loop repeatedly strips the first matching qualifier
among "struct ", "enum ", "const " and restarts; it sends "const struct Foo"
to "Foo", leaves any name that starts with none of the three qualifiers
unchanged, and is idempotent on every input string. -/
theorem prefixes_stripped_clean_idempotent :
    prefixes_stripped "const struct Foo".data = "Foo".data ∧
    (∀ s : List Char, (∀ q ∈ qualifier_list, str_has_prefix s q = false) →
      prefixes_stripped s = s) ∧
    (∀ s : List Char, prefixes_stripped (prefixes_stripped s) = prefixes_stripped s) := by
  refine ⟨by decide, ?_, ?_⟩
  · intro s hclean
    have hnone : strip_step s = none := by
      simp only [strip_step, qualifier_list, strip_first_match]
      have h1 := hclean "struct ".data (by simp [qualifier_list])
      have h2 := hclean "enum ".data (by simp [qualifier_list])
      have h3 := hclean "const ".data (by simp [qualifier_list])
      simp [h1, h2, h3]
    exact strip_loop_of_none hnone _
  · intro s
    exact strip_loop_of_none (prefixes_stripped_fixpoint s) _

/-- C7 witness: the already-clean branch applied at a concrete name. -/
theorem prefixes_stripped_clean_idempotent_witness :
    prefixes_stripped "Foo".data = "Foo".data :=
  prefixes_stripped_clean_idempotent.2.1 "Foo".data (by decide)

/-! ## The type classifier (to_zig_type) -/

/-- Embedding of the libclang `CXType` values consumed by `to_zig_type`.
Scalar kinds mirror the `CXType_*` cases of the switch (parseh.cpp:82).
A pointer or incomplete array carries the const-qualification flag of its
pointee/element (the source queries it with `clang_isConstQualifiedType`);
record, enum and typedef kinds carry their spelling
(`clang_getTypeSpelling`); a typedef also carries its underlying type
(`clang_getTypedefDeclUnderlyingType`); `unexposed` carries the canonical
type (`clang_getCanonicalType`).  `CXType_Invalid` is excluded: the source
marks it `zig_unreachable`.  The kinds the source only panics on are merged
into dedicated constructors. -/
inductive CType where
  | void
  | bool
  | schar
  | char_u
  | char_s
  | uchar
  | wchar
  | char16
  | char32
  | ushort
  | uint
  | ulong
  | ulonglong
  | uint128
  | short
  | int
  | long
  | longlong
  | int128
  | float
  | double
  | longdouble
  | incompleteArray (elem_const : Bool) (elem : CType)
  | pointer (pointee_const : Bool) (pointee : CType)
  | record (spelling : List Char)
  | enum (spelling : List Char)
  | typedef (spelling : List Char) (underlying : CType)
  | constantArray (elem : CType) (size : Nat)
  | functionProto
  | functionNoProto
  | blockPointer
  | vector
  | complex
  | otherUnsupported
  | unexposed (canonical : CType)
deriving DecidableEq

/-- Embedding of `to_zig_type` (parseh.cpp:74).  `none` models a fatal
`zig_panic`; the `functionProto` case returns the placeholder "*const u8"
after a warning, which the pure classifier does not record. -/
def to_zig_type : CType → Option (List Char)
  | .unexposed (.unexposed _) => none
  | .unexposed c => to_zig_type c
  | .void => some "void".data
  | .bool => some "bool".data
  | .schar => some "i8".data
  | .char_u => some "u8".data
  | .char_s => some "u8".data
  | .uchar => some "u8".data
  | .wchar => none
  | .char16 => none
  | .char32 => none
  | .ushort => some "c_ushort".data
  | .uint => some "c_uint".data
  | .ulong => some "c_ulong".data
  | .ulonglong => some "c_ulonglong".data
  | .uint128 => none
  | .short => some "c_short".data
  | .int => some "c_int".data
  | .long => some "c_long".data
  | .longlong => some "c_longlong".data
  | .int128 => none
  | .float => some "f32".data
  | .double => some "f64".data
  | .longdouble => some "f128".data
  | .incompleteArray c e =>
    match to_zig_type e with
    | some t => some ((if c then "*const ".data else "*mut ".data) ++ t)
    | none => none
  | .pointer c e =>
    match to_zig_type e with
    | some t => some ((if c then "*const ".data else "*mut ".data) ++ t)
    | none => none
  | .record sp => some (prefixes_stripped sp)
  | .enum sp => some (prefixes_stripped sp)
  | .typedef sp u =>
    let name := prefixes_stripped sp
    if name = "int8_t".data then some "i8".data
    else if name = "uint8_t".data then some "u8".data
    else if name = "uint16_t".data then some "u16".data
    else if name = "uint32_t".data then some "u32".data
    else if name = "uint64_t".data then some "u64".data
    else if name = "int16_t".data then some "i16".data
    else if name = "int32_t".data then some "i32".data
    else if name = "int64_t".data then some "i64".data
    else to_zig_type u
  | .constantArray e n =>
    match to_zig_type e with
    | some t => some ("[".data ++ t ++ "; ".data ++ (Nat.repr n).data ++ "]".data)
    | none => none
  | .functionProto => some "*const u8".data
  | .functionNoProto => none
  | .blockPointer => none
  | .vector => none
  | .complex => none
  | .otherUnsupported => none

/-- The eight fixed-width integer alias spellings recognised by the typedef
shortcut, in source order together with their translations. -/
def int_alias_table : List (List Char × List Char) :=
  [("int8_t".data, "i8".data), ("uint8_t".data, "u8".data),
   ("uint16_t".data, "u16".data), ("uint32_t".data, "u32".data),
   ("uint64_t".data, "u64".data), ("int16_t".data, "i16".data),
   ("int32_t".data, "i32".data), ("int64_t".data, "i64".data)]

/-- C2: a typedef whose prefix-stripped spelling is one of the eight
fixed-width aliases classifies purely by name, for every underlying type;
in particular a typedef spelled "uint32_t" always yields "u32".  A typedef
whose stripped spelling matches none of the eight instead classifies its
underlying type. -/
theorem typedef_alias_shortcut :
    (∀ sp (u : CType), ∀ entry ∈ int_alias_table,
      prefixes_stripped sp = entry.1 → to_zig_type (.typedef sp u) = some entry.2) ∧
    (∀ sp (u : CType), prefixes_stripped sp ∉ int_alias_table.map Prod.fst →
      to_zig_type (.typedef sp u) = to_zig_type u) := by
  constructor
  · intro sp u entry hentry hname
    fin_cases hentry <;> simp [ to_zig_type, hname]
  · intro sp u hnotin
    simp only [int_alias_table, List.map, List.mem_cons, List.not_mem_nil] at hnotin
    push_neg at hnotin
    obtain ⟨h1, h2, h3, h4, h5, h6, h7, h8, -⟩ := hnotin
    simp only [ to_zig_type, h1, h2, h3, h4, h5, h6, h7, h8, if_false, ite_false]

/-- The concrete spellings used by the classifier examples. -/
def spelling_uint32 : List Char := "uint32_t".data

/-- A spelling matching none of the eight integer aliases. -/
def spelling_myint : List Char := "MyInt".data

/-- The spelling of the int32_t alias, for the array example. -/
def spelling_int32 : List Char := "int32_t".data

/-- C2 witness: the shortcut fires for a typedef spelled "uint32_t" whose
underlying type is double, and a typedef spelled "MyInt" resolves its
underlying type instead. -/
theorem typedef_alias_shortcut_witness :
    to_zig_type ( .typedef spelling_uint32 .double) = some "u32".data ∧
    to_zig_type ( .typedef spelling_myint .int) = to_zig_type .int :=
  ⟨typedef_alias_shortcut.1 "uint32_t".data .double
      ("uint32_t".data, "u32".data) (by decide) (by decide),
   typedef_alias_shortcut.2 "MyInt".data .int (by decide)⟩

/-- C6: classifying a pointer recursively classifies the pointee and wraps it
as "*const T" when the pointee is const-qualified and "*mut T" otherwise, and
an incomplete array is classified exactly like a pointer over the same
element type. -/
theorem pointer_incomplete_array_classification (c : Bool) (t : CType) (z : List Char)
    (h : to_zig_type t = some z) :
    to_zig_type (.pointer c t) =
      some ((if c then "*const ".data else "*mut ".data) ++ z) ∧
    to_zig_type (.incompleteArray c t) = to_zig_type (.pointer c t) := by
  constructor <;> simp [ to_zig_type, h]

/-- C6 witness: pointer-to-const-int and the matching incomplete array. -/
theorem pointer_incomplete_array_classification_witness :
    to_zig_type (.pointer true .int) = some ("*const ".data ++ "c_int".data) ∧
    to_zig_type (.incompleteArray true .int) = to_zig_type (.pointer true .int) := by
  have h := pointer_incomplete_array_classification true .int "c_int".data (by decide)
  simpa using h

/-- C8: classifying a constant array of element type E and count N yields
"[T; N]" with T the classification of E and N printed in decimal; N = 0 is
legal and yields "[T; 0]", and a 4-element array over an element classifying
to "i32" yields "[i32; 4]". -/
theorem constant_array_classification (e : CType) (n : Nat) (z : List Char)
    (h : to_zig_type e = some z) :
    to_zig_type (.constantArray e n) =
      some ("[".data ++ z ++ "; ".data ++ (Nat.repr n).data ++ "]".data) ∧
    to_zig_type (.constantArray e 0) = some ("[".data ++ z ++ "; 0]".data) ∧
    to_zig_type (.constantArray ( .typedef spelling_int32 .int) 4) =
      some "[i32; 4]".data := by
  refine ⟨by simp [ to_zig_type, h], ?_, by decide⟩
  have h0 : (Nat.repr 0).data = ['0'] := by decide
  simp [ to_zig_type, h, h0, List.append_assoc]

/-- C8 witness: a 3-element array of plain int. -/
theorem constant_array_classification_witness :
    to_zig_type (.constantArray .int 3) =
      some ("[".data ++ "c_int".data ++ "; ".data ++ (Nat.repr 3).data ++ "]".data) :=
  (constant_array_classification .int 3 "c_int".data (by decide)).1

/-! ## The emitter (parse_h_file, lines 388-409) -/

/-- Embedding of the `Arg` record (parseh.cpp:7) as finally printed. -/
structure Arg where
  name : List Char
  type : List Char
deriving DecidableEq

/-- Embedding of the `Fn` record (parseh.cpp:12); `arg_count` is the list
length. -/
structure Fn where
  name : List Char
  return_type : List Char
  args : List Arg
deriving DecidableEq

/-- The `indent_size` constant (parseh.cpp:29). -/
def indent_size : Nat := 4

/-- The inner argument loop of the emitter (parseh.cpp:395-401): each
argument prints "name: type" and a ", " separator follows whenever another
argument remains. -/
def print_args : List Arg → List Char
  | [] => []
  | [a] => a.name ++ ": ".data ++ a.type
  | a :: b :: rest => a.name ++ ": ".data ++ a.type ++ ", ".data ++ print_args (b :: rest)

/-- One function line of the emitter (parseh.cpp:393-406): `print_indent`
writes `cur_indent` = 4 spaces, then "fn name(args)", then " -> ret" unless
the return type spells "void", then ";" and the newline. -/
def print_fn_line (fn : Fn) : List Char :=
  List.replicate indent_size ' ' ++ "fn ".data ++ fn.name ++ "(".data ++
    print_args fn.args ++ ")".data ++
    (if fn.return_type = "void".data then [] else " -> ".data ++ fn.return_type) ++
    ";\n".data

/-- Embedding of the emission block (parseh.cpp:388-409): nothing is printed
for an empty list, otherwise the extern block wraps one line per function. -/
def emit (fns : List Fn) : List Char :=
  if fns.length = 0 then []
  else "extern \x7b\n".data ++ (fns.map print_fn_line).flatten ++ "\x7d\n".data

/-- Specification-side rendering of one function line, written from the
spec's words: 4-space indentation, arguments comma-separated in original
order via an off-the-shelf intercalation, and the arrow clause present iff
the return type is not the literal "void". -/
def spec_fn_line (fn : Fn) : List Char :=
  "    ".data ++ "fn ".data ++ fn.name ++ "(".data ++
    List.intercalate ", ".data (fn.args.map (fun a => a.name ++ ": ".data ++ a.type)) ++
    ")".data ++
    (if fn.return_type = "void".data then [] else " -> ".data ++ fn.return_type) ++
    ";\n".data

theorem print_args_eq_intercalate (args : List Arg) :
    print_args args =
      List.intercalate ", ".data (args.map (fun a => a.name ++ ": ".data ++ a.type)) := by
  induction args with
  | nil => simp [print_args, List.intercalate]
  | cons a rest ih =>
    cases rest with
    | nil => simp [print_args, List.intercalate]
    | cons b rest' =>
      simp only [print_args, ih, List.map, List.intercalate, List.intersperse_cons_cons,
        List.flatten_cons]
      simp [List.append_assoc]

theorem print_fn_line_eq_spec (fn : Fn) : print_fn_line fn = spec_fn_line fn := by
  simp [print_fn_line, spec_fn_line, print_args_eq_intercalate, indent_size,
    List.replicate]

/-- The two-function example list from the claim. -/
def fn_add_example : Fn :=
  { name := "add".data, return_type := "i32".data,
    args := [{ name := "a".data, type := "i32".data },
             { name := "b".data, type := "i32".data }] }

/-- The second (void-returning) function of the claim's example list. -/
def fn_log_example : Fn :=
  { name := "log".data, return_type := "void".data,
    args := [{ name := "msg".data, type := "*const u8".data }] }

/-- C1: for a non-empty finalized list the emitter writes "extern {", one
4-space-indented line per function in list order of the form
"fn name(arg0: T0, arg1: T1, ...);" with the " -> ret" clause exactly when
the return type is not the literal "void", then "}"; the two-function
example renders to the exact expected block. -/
theorem emit_extern_block (fns : List Fn) (hne : fns ≠ []) :
    emit fns = "extern \x7b\n".data ++ (fns.map spec_fn_line).flatten ++ "\x7d\n".data ∧
    emit [fn_add_example, fn_log_example] =
      "extern \x7b\n    fn add(a: i32, b: i32) -> i32;\n    fn log(msg: *const u8);\n\x7d\n".data := by
  constructor
  · have hlen : fns.length ≠ 0 := by
      simpa [List.length_eq_zero] using hne
    have hfun : print_fn_line = spec_fn_line := funext print_fn_line_eq_spec
    simp only [emit, if_neg hlen, hfun]
  · decide

/-- C1 witness: the emitter applied to the claim's concrete two-function
list. -/
theorem emit_extern_block_witness :
    emit [fn_add_example, fn_log_example] =
      "extern \x7b\n    fn add(a: i32, b: i32) -> i32;\n    fn log(msg: *const u8);\n\x7d\n".data :=
  (emit_extern_block [fn_add_example, fn_log_example] (by decide)).2

/-- C10: the plain C integer kinds map to the compiler-dependent named types
c_short, c_ushort, c_int, c_uint, c_long, c_ulong, c_longlong, c_ulonglong,
and consequently a pointer to const int classifies as "*const c_int". -/
theorem plain_c_integer_mapping :
    to_zig_type .short = some "c_short".data ∧
    to_zig_type .ushort = some "c_ushort".data ∧
    to_zig_type .int = some "c_int".data ∧
    to_zig_type .uint = some "c_uint".data ∧
    to_zig_type .long = some "c_long".data ∧
    to_zig_type .ulong = some "c_ulong".data ∧
    to_zig_type .longlong = some "c_longlong".data ∧
    to_zig_type .ulonglong = some "c_ulonglong".data ∧
    to_zig_type (.pointer true .int) = some "*const c_int".data := by
  decide

/-! ## ZIG_PARSEH_CFLAGS splitting (parse_h_file, lines 336-353) -/

/-- Embedding of `strstr(start, " ")` (parseh.cpp:340): split the string at
its first space, or report that none exists. -/
def break_at_space : List Char → Option (List Char × List Char)
  | [] => none
  | c :: rest =>
    if c = ' ' then some ([], rest)
    else
      match break_at_space rest with
      | some (pre, post) => some (c :: pre, post)
      | none => none

/-- The `while (space)` loop of the flag splitter (parseh.cpp:341-350),
driven by explicit fuel: a segment before a space is appended only when
non-empty, and the segment after the last space is appended unconditionally.
Every round consumes at least the space character, so `s.length` rounds
always suffice. -/
def flag_loop : Nat → List Char → List (List Char)
  | 0, s => [s]
  | fuel + 1, s =>
    match break_at_space s with
    | some (pre, post) => (if 0 < pre.length then [pre] else []) ++ flag_loop fuel post
    | none => [s]

/-- The token list produced from a `ZIG_PARSEH_CFLAGS` string. -/
def flag_tokens (s : List Char) : List (List Char) := flag_loop s.length s

/-- Embedding of the argv assembly (parseh.cpp:336-353): the environment
string's tokens, when the variable is set, are appended to the caller's
argument list and the null sentinel follows in every case. -/
def append_cflags (cflags : Option (List Char)) (argv : List (Option (List Char))) :
    List (Option (List Char)) :=
  (match cflags with
   | some s => argv ++ (flag_tokens s).map some
   | none => argv) ++ [none]

theorem break_at_space_none {s : List Char} (h : ' ' ∉ s) :
    break_at_space s = none := by
  induction s with
  | nil => rfl
  | cons c rest ih =>
    have hc : ¬ c = ' ' := fun hc => h (by simp [hc])
    have hr : ' ' ∉ rest := fun hr => h (by simp [hr])
    simp [break_at_space, hc, ih hr]

theorem break_at_space_clean {a : List Char} (rest : List Char) (h : ' ' ∉ a) :
    break_at_space (a ++ ' ' :: rest) = some (a, rest) := by
  induction a with
  | nil => simp [break_at_space]
  | cons c a' ih =>
    have hc : ¬ c = ' ' := fun hc => h (by simp [hc])
    have ha' : ' ' ∉ a' := fun ha => h (by simp [ha])
    simp [break_at_space, hc, ih ha']

theorem break_at_space_parts {s pre post : List Char}
    (h : break_at_space s = some (pre, post)) : s = pre ++ ' ' :: post := by
  induction s generalizing pre post with
  | nil => simp [break_at_space] at h
  | cons c rest ih =>
    simp only [break_at_space] at h
    split at h
    · rename_i hc
      obtain ⟨h1, h2⟩ := Prod.mk.injEq .. ▸ Option.some.injEq .. ▸ h
      subst hc
      simp [← h1, ← h2]
    · revert h
      cases hb : break_at_space rest with
      | none => intro h; simp at h
      | some pp =>
        intro h
        obtain ⟨pre', post'⟩ := pp
        have := ih hb
        simp only [Option.some.injEq, Prod.mk.injEq] at h
        obtain ⟨h1, h2⟩ := h
        subst h2
        simp [← h1, this]

theorem flag_loop_fuel_irrelevant :
    ∀ f1 f2 s, s.length ≤ f1 → s.length ≤ f2 → flag_loop f1 s = flag_loop f2 s := by
  intro f1
  induction f1 with
  | zero =>
    intro f2 s hs1 _
    have : s = [] := List.length_eq_zero.mp (Nat.le_zero.mp hs1)
    subst this
    cases f2 <;> simp [flag_loop, break_at_space]
  | succ n ih =>
    intro f2 s hs1 hs2
    cases f2 with
    | zero =>
      have : s = [] := List.length_eq_zero.mp (Nat.le_zero.mp hs2)
      subst this
      simp [flag_loop, break_at_space]
    | succ m =>
      cases hb : break_at_space s with
      | none => simp [flag_loop, hb]
      | some pp =>
        obtain ⟨pre, post⟩ := pp
        have hs : s = pre ++ ' ' :: post := break_at_space_parts hb
        have hlen : post.length < s.length := by
          subst hs; simp; omega
        simp only [flag_loop, hb]
        rw [ih m post (by omega) (by omega)]

theorem flag_tokens_no_space {s : List Char} (h : ' ' ∉ s) : flag_tokens s = [s] := by
  unfold flag_tokens
  cases hl : s.length with
  | zero => simp [flag_loop]
  | succ n => simp [flag_loop, break_at_space_none h]

theorem flag_tokens_step {a : List Char} (rest : List Char) (h : ' ' ∉ a) :
    flag_tokens (a ++ ' ' :: rest) =
      (if 0 < a.length then [a] else []) ++ flag_tokens rest := by
  unfold flag_tokens
  have hlen : (a ++ ' ' :: rest).length = a.length + rest.length + 1 := by
    simp; omega
  rw [hlen]
  simp only [flag_loop, break_at_space_clean rest h]
  rw [flag_loop_fuel_irrelevant (a.length + rest.length) rest.length rest
    (by omega) (Nat.le_refl _)]

/-- C4: the environment flag string is split on single spaces, empty tokens
between two consecutive spaces are dropped, and the tokens are appended in
order ahead of the terminating null sentinel; the double-space example
"-I/usr/include  -DFOO" yields exactly the two expected tokens. -/
theorem cflags_split_drops_inner_empty (a b : List Char) (argv : List (Option (List Char)))
    (ha : ' ' ∉ a) (hb : ' ' ∉ b) (hna : a ≠ []) (hnb : b ≠ []) :
    flag_tokens (a ++ ' ' :: ' ' :: b) = [a, b] ∧
    append_cflags (some (a ++ ' ' :: ' ' :: b)) argv = argv ++ [some a, some b, none] ∧
    flag_tokens "-I/usr/include  -DFOO".data = ["-I/usr/include".data, "-DFOO".data] := by
  have h1 : flag_tokens (a ++ ' ' :: ' ' :: b) = [a, b] := by
    have step1 := flag_tokens_step (' ' :: b) ha
    have step2 : flag_tokens (' ' :: b) = flag_tokens b := by
      have := flag_tokens_step (a := []) b (by simp)
      simpa using this
    rw [step1, step2, flag_tokens_no_space hb,
      if_pos (List.length_pos.mpr hna)]
    rfl
  refine ⟨h1, ?_, by decide⟩
  simp [append_cflags, h1, List.append_assoc]

/-- C4 witness: the general double-space splitting applied at the claim's
concrete flag string. -/
theorem cflags_split_drops_inner_empty_witness :
    flag_tokens ("-I/usr/include".data ++ ' ' :: ' ' :: "-DFOO".data) =
      ["-I/usr/include".data, "-DFOO".data] :=
  (cflags_split_drops_inner_empty "-I/usr/include".data "-DFOO".data []
    (by decide) (by decide) (by decide) (by decide)).1

theorem flag_tokens_ne_nil (s : List Char) : flag_tokens s ≠ [] := by
  unfold flag_tokens
  generalize s.length = fuel
  induction fuel generalizing s with
  | zero => simp [flag_loop]
  | succ n ih =>
    cases hb : break_at_space s with
    | none => simp [flag_loop, hb]
    | some pp =>
      obtain ⟨pre, post⟩ := pp
      simp only [flag_loop, hb]
      intro hcontra
      exact ih post (by simpa using List.append_eq_nil.mp hcontra |>.2)

theorem space_not_mem_of_break_none {s : List Char} (h : break_at_space s = none) :
    ' ' ∉ s := by
  induction s with
  | nil => simp
  | cons c rest ih =>
    simp only [break_at_space] at h
    split at h
    · exact absurd h (by simp)
    · rename_i hc
      revert h
      cases hb : break_at_space rest with
      | some pp => intro h; exact absurd h (by simp)
      | none =>
        intro _
        have hr := ih hb
        simp only [List.mem_cons, not_or]
        exact ⟨fun hcc => hc hcc.symm, hr⟩

theorem break_at_space_pre_clean {s pre post : List Char}
    (h : break_at_space s = some (pre, post)) : ' ' ∉ pre := by
  induction s generalizing pre post with
  | nil => simp [break_at_space] at h
  | cons c rest ih =>
    simp only [break_at_space] at h
    split at h
    · simp only [Option.some.injEq, Prod.mk.injEq] at h
      simp [← h.1]
    · rename_i hc
      revert h
      cases hb : break_at_space rest with
      | none => intro h; simp at h
      | some pp =>
        intro h
        obtain ⟨pre', post'⟩ := pp
        simp only [Option.some.injEq, Prod.mk.injEq] at h
        obtain ⟨h1, -⟩ := h
        have hpre' := ih hb
        simp only [← h1, List.mem_cons, not_or]
        exact ⟨fun hcc => hc hcc.symm, hpre'⟩

theorem flag_tokens_trailing_aux :
    ∀ k s, s.length ≤ k → (flag_tokens (s ++ [' '])).getLast? = some [] := by
  intro k
  induction k with
  | zero =>
    intro s hs
    have : s = [] := List.length_eq_zero.mp (Nat.le_zero.mp hs)
    subst this
    decide
  | succ n ih =>
    intro s hs
    cases hb : break_at_space s with
    | none =>
      have hns : ' ' ∉ s := space_not_mem_of_break_none hb
      have : s ++ [' '] = s ++ ' ' :: [] := rfl
      rw [this, flag_tokens_step [] hns]
      have hnil : flag_tokens [] = [[]] := by decide
      rw [hnil, List.getLast?_append_of_ne_nil _ (by simp)]
      rfl
    | some pp =>
      obtain ⟨pre, post⟩ := pp
      have hsplit : s = pre ++ ' ' :: post := break_at_space_parts hb
      have hpre : ' ' ∉ pre := break_at_space_pre_clean hb
      have hshape : s ++ [' '] = pre ++ ' ' :: (post ++ [' ']) := by
        simp [hsplit]
      rw [hshape, flag_tokens_step (post ++ [' ']) hpre,
        List.getLast?_append_of_ne_nil _ (flag_tokens_ne_nil _)]
      have hlen : post.length ≤ n := by
        have : s.length = pre.length + 1 + post.length := by simp [hsplit]; omega
        omega
      exact ih post hlen

/-- C9: the segment of the flag string after its last space is appended
unconditionally, even when empty: the empty string contributes one empty
token, every string ending in a space ends its token list with an empty
token, and "-DFOO " contributes the tokens "-DFOO" and "" ahead of the null
sentinel. -/
theorem cflags_trailing_empty_token_kept :
    flag_tokens [] = [[]] ∧
    (∀ s : List Char, (flag_tokens (s ++ [' '])).getLast? = some []) ∧
    append_cflags (some "-DFOO ".data) [] = [some "-DFOO".data, some [], none] := by
  refine ⟨by decide, ?_, by decide⟩
  intro s
  exact flag_tokens_trailing_aux s.length s (Nat.le_refl _)

/-! ## The declaration collector (fn_visitor, lines 229-321) -/

/-- A source location, the data printed by `print_location` (parseh.cpp:65). -/
structure SrcLoc where
  file : List Char
  line : Nat
  column : Nat
deriving DecidableEq

/-- The `CX_StorageClass` values consumed by `is_storage_class_export`
(parseh.cpp:229).  `CX_SC_Invalid` is excluded: the source marks it
`zig_unreachable` and libclang never reports it for a function
declaration. -/
inductive StorageClass where
  | scNone
  | scExtern
  | scAuto
  | scStatic
  | scPrivateExtern
  | scOpenCLWorkGroupLocal
  | scRegister
deriving DecidableEq

/-- Embedding of `is_storage_class_export` (parseh.cpp:229). -/
def is_storage_class_export : StorageClass → Bool
  | .scNone => true
  | .scExtern => true
  | .scAuto => true
  | .scStatic => false
  | .scPrivateExtern => false
  | .scOpenCLWorkGroupLocal => false
  | .scRegister => false

/-- Calling conventions, as compared against `CXCallingConv_C`
(parseh.cpp:279); only which values differ from `c` matters. -/
inductive CallingConv where
  | c
  | x86Stdcall
  | x86Fastcall
  | otherConv
deriving DecidableEq

/-- The data libclang exposes about one function declaration cursor: its
spelling, storage class, the variadic flag and calling convention of its
type, its result type and its argument types
(`clang_getNumArgTypes` / `clang_getArgType`). -/
structure FnDecl where
  name : List Char
  storage_class : StorageClass
  variadic : Bool
  calling_conv : CallingConv
  result_type : CType
  arg_types : List CType
deriving DecidableEq

/-- The cursor kinds distinguished by the `switch` in `fn_visitor`
(parseh.cpp:266): function declarations and parameter declarations carry
payloads; attributes, compound statements, fields and typedefs are pruned;
everything else is recursed into. -/
inductive NodeKind where
  | functionDecl (d : FnDecl)
  | parmDecl (pname : List Char)
  | unexposedAttr
  | compoundStmt
  | fieldDecl
  | typedefDecl
  | otherKind
deriving DecidableEq

/-- A cursor tree: kind, source location, and children visited on
`CXChildVisit_Recurse`. -/
inductive Node where
  | node (kind : NodeKind) (loc : SrcLoc) (children : List Node)

/-- The in-progress `Fn` record (`p->cur_fn`): argument names start out
unset (the `allocate<Arg>` in parseh.cpp:294) and are filled in by
parameter-declaration events. -/
structure CurFn where
  name : List Char
  return_type : List Char
  args : List (Option (List Char) × List Char)
deriving DecidableEq

/-- Warning text of the variadic-function skip (parseh.cpp:276). -/
def variadic_warning : List Char :=
  "warning: skipping variadic function, not yet supported".data

/-- Warning text of the calling-convention skip (parseh.cpp:281). -/
def calling_conv_warning : List Char :=
  "warning: skipping non c calling convention function, not yet supported".data

/-- Embedding of the mutable `ParseH` traversal state (parseh.cpp:19);
warnings record what the source prints to stderr, each tagged with the
location `print_location` would report. -/
structure ParseH where
  fn_list : List Fn
  cur_fn : Option CurFn
  arg_index : Nat
  location : SrcLoc
  warnings : List (SrcLoc × List Char)
deriving DecidableEq

/-- Finalizing a current function: uninitialized argument names print as
empty buffers. -/
def finish_fn (fn : CurFn) : Fn :=
  { name := fn.name, return_type := fn.return_type,
    args := fn.args.map (fun a => { name := a.1.getD [], type := a.2 }) }

/-- Embedding of `end_fn` (parseh.cpp:251): append the current function, if
any, to the list. -/
def end_fn (p : ParseH) : ParseH :=
  match p.cur_fn with
  | some fn => { p with fn_list := p.fn_list ++ [finish_fn fn], cur_fn := none }
  | none => p

/-- The two abort paths of the embedded visitor: `assertFail` stands for the
two `assert`s in the parameter branch (parseh.cpp:307-308), `classifyPanic`
for a fatal `zig_panic` inside `to_zig_type`. -/
inductive VisitError where
  | assertFail
  | classifyPanic
deriving DecidableEq

/-- The `CXChildVisitResult` values returned by `fn_visitor`. -/
inductive VisitAction where
  | visitContinue
  | visitRecurse
deriving DecidableEq

/-- Classification of all argument types of a function (the `for` loop in
parseh.cpp:296-299); any panic aborts the run. -/
def classify_list : List CType → Option (List (List Char))
  | [] => some []
  | t :: ts =>
    match to_zig_type t, classify_list ts with
    | some z, some zs => some (z :: zs)
    | _, _ => none

/-- Embedding of one `fn_visitor` call (parseh.cpp:258): the cursor's
location is recorded first, then the kind is dispatched exactly as the
source's `switch`. -/
def fn_visitor_step (p0 : ParseH) (kind : NodeKind) (loc : SrcLoc) :
    Except VisitError (ParseH × VisitAction) :=
  let p := { p0 with location := loc }
  match kind with
  | .functionDecl d =>
    if is_storage_class_export d.storage_class = false then
      .ok (p, .visitContinue)
    else if d.variadic then
      .ok ({ p with warnings := p.warnings ++ [(loc, variadic_warning)] }, .visitContinue)
    else if d.calling_conv ≠ CallingConv.c then
      .ok ({ p with warnings := p.warnings ++ [(loc, calling_conv_warning)] },
        .visitContinue)
    else
      let p1 := end_fn p
      match to_zig_type d.result_type with
      | none => .error .classifyPanic
      | some rt =>
        match classify_list d.arg_types with
        | none => .error .classifyPanic
        | some arg_zs =>
          .ok ({ p1 with
                 cur_fn := some { name := d.name, return_type := rt,
                                  args := arg_zs.map (fun z => (none, z)) },
                 arg_index := 0 }, .visitRecurse)
  | .parmDecl pname =>
    match p.cur_fn with
    | none => .error .assertFail
    | some fn =>
      if h : p.arg_index < fn.args.length then
        .ok ({ p with
               cur_fn := some { fn with
                 args := fn.args.set p.arg_index (some pname, (fn.args.get ⟨p.arg_index, h⟩).2) },
               arg_index := p.arg_index + 1 }, .visitContinue)
      else .error .assertFail
  | .unexposedAttr => .ok (p, .visitContinue)
  | .compoundStmt => .ok (p, .visitContinue)
  | .fieldDecl => .ok (p, .visitContinue)
  | .typedefDecl => .ok (p, .visitContinue)
  | .otherKind => .ok (p, .visitRecurse)

mutual

/-- Depth-first traversal of one cursor, as driven by
`clang_visitChildren`: children are visited exactly when the visitor
returns `CXChildVisit_Recurse`. -/
def visitNode (p : ParseH) : Node → Except VisitError ParseH
  | .node kind loc children =>
    match fn_visitor_step p kind loc with
    | .error e => .error e
    | .ok (p1, .visitContinue) => .ok p1
    | .ok (p1, .visitRecurse) => visitList p1 children

/-- Depth-first traversal of a sibling list, threading the state left to
right. -/
def visitList (p : ParseH) : List Node → Except VisitError ParseH
  | [] => .ok p
  | n :: ns =>
    match visitNode p n with
    | .error e => .error e
    | .ok p1 => visitList p1 ns

end

/-- The zero-initialized state `ParseH parse_h = {0}` (parseh.cpp:330). -/
def init_state : ParseH :=
  { fn_list := [], cur_fn := none, arg_index := 0,
    location := { file := [], line := 0, column := 0 }, warnings := [] }

/-- Embedding of the traversal-plus-emission tail of `parse_h_file`
(parseh.cpp:384-409): visit the root cursors, finalize the last function,
emit. -/
def parse_h_output (roots : List Node) : Except VisitError (List Char) :=
  match visitList init_state roots with
  | .error e => .error e
  | .ok p => .ok (emit (end_fn p).fn_list)

/-! ## Well-formed cursor trees and the arity invariant -/

/-- Whether a node is a parameter declaration. -/
def is_parm_node : Node → Bool
  | .node (.parmDecl _) _ _ => true
  | _ => false

/-- The number of parameter-declaration nodes among a list of siblings. -/
def count_parms : List Node → Nat
  | [] => 0
  | n :: ns => (if is_parm_node n then 1 else 0) + count_parms ns

/-- The kinds a well-formed C AST places directly under a function
declaration cursor: its parameters, plus kinds the visitor never recurses
into (attributes, the body, fields, nested typedefs). -/
def fn_child_ok : Node → Bool
  | .node (.parmDecl _) _ _ => true
  | .node .unexposedAttr _ _ => true
  | .node .compoundStmt _ _ => true
  | .node .fieldDecl _ _ => true
  | .node .typedefDecl _ _ => true
  | _ => false

mutual

/-- Well-formedness of one cursor, matching what libclang produces for a
parsed C translation unit: a function declaration has exactly as many
parameter children as its type has parameters and only function-child
kinds below it, a parameter declaration never occurs outside a function
declaration, and other recursed-into nodes have well-formed children. -/
def wf_node : Node → Bool
  | .node (.functionDecl d) _ ch =>
    (count_parms ch == d.arg_types.length) && ch.all fn_child_ok
  | .node (.parmDecl _) _ _ => false
  | .node .otherKind _ ch => wf_forest ch
  | .node .unexposedAttr _ _ => true
  | .node .compoundStmt _ _ => true
  | .node .fieldDecl _ _ => true
  | .node .typedefDecl _ _ => true

/-- Well-formedness of a sibling list. -/
def wf_forest : List Node → Bool
  | [] => true
  | n :: ns => wf_node n && wf_forest ns

end

/-- The collector's standing invariant between function subtrees: any
current function already has all of its parameter names accepted. -/
def collector_inv (p : ParseH) : Prop :=
  ∀ fn, p.cur_fn = some fn → p.arg_index = fn.args.length

theorem classify_list_length {ts : List CType} {zs : List (List Char)}
    (h : classify_list ts = some zs) : zs.length = ts.length := by
  induction ts generalizing zs with
  | nil => simp [classify_list] at h; simp [← h]
  | cons t ts' ih =>
    simp only [classify_list] at h
    revert h
    cases hz : to_zig_type t with
    | none => intro h; simp at h
    | some z =>
      cases hrest : classify_list ts' with
      | none => intro h; simp at h
      | some zs' =>
        intro h
        simp only [Option.some.injEq] at h
        simp [← h, ih hrest]

theorem visitNode_of_continue {p p1 : ParseH} {kind : NodeKind} {loc : SrcLoc}
    (ch : List Node) (h : fn_visitor_step p kind loc = .ok (p1, .visitContinue)) :
    visitNode p (.node kind loc ch) = .ok p1 := by
  simp [visitNode, h]

theorem visitNode_of_recurse {p p1 : ParseH} {kind : NodeKind} {loc : SrcLoc}
    (ch : List Node) (h : fn_visitor_step p kind loc = .ok (p1, .visitRecurse)) :
    visitNode p (.node kind loc ch) = visitList p1 ch := by
  simp [visitNode, h]

theorem visitNode_of_error {p : ParseH} {kind : NodeKind} {loc : SrcLoc}
    {e : VisitError} (ch : List Node) (h : fn_visitor_step p kind loc = .error e) :
    visitNode p (.node kind loc ch) = .error e := by
  simp [visitNode, h]

theorem visitList_cons_ok {p p1 : ParseH} {n : Node} {rest : List Node}
    (h : visitNode p n = .ok p1) :
    visitList p (n :: rest) = visitList p1 rest := by
  simp [visitList, h]

theorem visitList_cons_error {p : ParseH} {n : Node} {rest : List Node} {e : VisitError}
    (h : visitNode p n = .error e) :
    visitList p (n :: rest) = .error e := by
  simp [visitList, h]

/-- The current-function record produced by one accepted parameter-name
event: the name is written at the current index, the type is untouched. -/
def record_parm (p : ParseH) (fn : CurFn) (pname : List Char)
    (h : p.arg_index < fn.args.length) : CurFn :=
  { fn with args := fn.args.set p.arg_index (some pname, (fn.args.get ⟨p.arg_index, h⟩).2) }

/-- Evaluation of the visitor step on a parameter declaration when a
current function exists and its arity is not yet exhausted: the name is
recorded at the current index and the index advances. -/
theorem fn_visitor_step_parm {p : ParseH} {fn : CurFn} (pname : List Char) (loc : SrcLoc)
    (hcur : p.cur_fn = some fn) (h : p.arg_index < fn.args.length) :
    fn_visitor_step p (.parmDecl pname) loc =
      .ok ({ p with
             location := loc,
             cur_fn := some (record_parm p fn pname h),
             arg_index := p.arg_index + 1 }, .visitContinue) := by
  simp [fn_visitor_step, hcur, h, record_parm]

/-- The pruned kinds among function children step to the location-only
state update. -/
theorem fn_visitor_step_pruned (p : ParseH) (loc : SrcLoc) (kind : NodeKind)
    (h : kind = .unexposedAttr ∨ kind = .compoundStmt ∨ kind = .fieldDecl ∨
      kind = .typedefDecl) :
    fn_visitor_step p kind loc = .ok ({ p with location := loc }, .visitContinue) := by
  rcases h with h | h | h | h <;> subst h <;> simp [fn_visitor_step]

/-- Traversing the children of an accepted function declaration: starting
from a freshly begun current function whose remaining arity equals the
number of parameter children, the traversal succeeds, accepts exactly that
many parameter names, and ends with the arity exhausted. -/
theorem visit_fn_children :
    ∀ (ch : List Node) (p : ParseH) (fn : CurFn), p.cur_fn = some fn →
      ch.all fn_child_ok = true →
      p.arg_index + count_parms ch = fn.args.length →
      ∃ p' fn', visitList p ch = .ok p' ∧ p'.cur_fn = some fn' ∧
        fn'.args.length = fn.args.length ∧ p'.arg_index = fn.args.length := by
  intro ch
  induction ch with
  | nil =>
    intro p fn hcur _ hcnt
    exact ⟨p, fn, by simp [visitList], hcur, rfl, by simpa [count_parms] using hcnt⟩
  | cons n ns ih =>
    intro p fn hcur hok hcnt
    obtain ⟨kind, loc, chn⟩ := n
    have hok_head : fn_child_ok (.node kind loc chn) = true := by
      simp only [List.all_cons, Bool.and_eq_true] at hok
      exact hok.1
    have hok_tail : ns.all fn_child_ok = true := by
      simp only [List.all_cons, Bool.and_eq_true] at hok
      exact hok.2
    cases kind with
    | parmDecl pname =>
      have hlt : p.arg_index < fn.args.length := by
        simp [count_parms, is_parm_node] at hcnt
        omega
      have hstep := fn_visitor_step_parm pname loc hcur hlt
      rw [visitList_cons_ok (visitNode_of_continue chn hstep)]
      have hlen2 : (record_parm p fn pname hlt).args.length = fn.args.length := by
        simp [record_parm]
      obtain ⟨p', fn', hvl, hcur', hlen', hidx'⟩ :=
        ih { p with
             location := loc,
             cur_fn := some (record_parm p fn pname hlt),
             arg_index := p.arg_index + 1 }
          (record_parm p fn pname hlt) rfl hok_tail
          (by rw [hlen2]
              show p.arg_index + 1 + count_parms ns = fn.args.length
              simp [count_parms, is_parm_node] at hcnt
              omega)
      exact ⟨p', fn', hvl, hcur', by omega, by omega⟩
    | functionDecl d => simp [fn_child_ok] at hok_head
    | otherKind => simp [fn_child_ok] at hok_head
    | unexposedAttr =>
      have hstep := fn_visitor_step_pruned p loc .unexposedAttr (by simp)
      rw [visitList_cons_ok (visitNode_of_continue chn hstep)]
      obtain ⟨p', fn', hvl, hcur', hlen', hidx'⟩ :=
        ih { p with location := loc } fn (by simpa using hcur) hok_tail
          (by simp only [count_parms, is_parm_node] at hcnt ⊢
              simpa using hcnt)
      exact ⟨p', fn', hvl, hcur', hlen', hidx'⟩
    | compoundStmt =>
      have hstep := fn_visitor_step_pruned p loc .compoundStmt (by simp)
      rw [visitList_cons_ok (visitNode_of_continue chn hstep)]
      obtain ⟨p', fn', hvl, hcur', hlen', hidx'⟩ :=
        ih { p with location := loc } fn (by simpa using hcur) hok_tail
          (by simp only [count_parms, is_parm_node] at hcnt ⊢
              simpa using hcnt)
      exact ⟨p', fn', hvl, hcur', hlen', hidx'⟩
    | fieldDecl =>
      have hstep := fn_visitor_step_pruned p loc .fieldDecl (by simp)
      rw [visitList_cons_ok (visitNode_of_continue chn hstep)]
      obtain ⟨p', fn', hvl, hcur', hlen', hidx'⟩ :=
        ih { p with location := loc } fn (by simpa using hcur) hok_tail
          (by simp only [count_parms, is_parm_node] at hcnt ⊢
              simpa using hcnt)
      exact ⟨p', fn', hvl, hcur', hlen', hidx'⟩
    | typedefDecl =>
      have hstep := fn_visitor_step_pruned p loc .typedefDecl (by simp)
      rw [visitList_cons_ok (visitNode_of_continue chn hstep)]
      obtain ⟨p', fn', hvl, hcur', hlen', hidx'⟩ :=
        ih { p with location := loc } fn (by simpa using hcur) hok_tail
          (by simp only [count_parms, is_parm_node] at hcnt ⊢
              simpa using hcnt)
      exact ⟨p', fn', hvl, hcur', hlen', hidx'⟩

/-- A function declaration with non-exported storage class: subtree skipped,
no warning, no state change beyond the recorded location. -/
theorem fn_visitor_step_not_export {p : ParseH} {d : FnDecl} (loc : SrcLoc)
    (h : is_storage_class_export d.storage_class = false) :
    fn_visitor_step p (.functionDecl d) loc =
      .ok ({ p with location := loc }, .visitContinue) := by
  simp [fn_visitor_step, h]

/-- A variadic exported function: subtree skipped after exactly one
warning. -/
theorem fn_visitor_step_variadic {p : ParseH} {d : FnDecl} (loc : SrcLoc)
    (hexp : is_storage_class_export d.storage_class = true) (hvar : d.variadic = true) :
    fn_visitor_step p (.functionDecl d) loc =
      .ok ({ p with
             location := loc,
             warnings := p.warnings ++ [(loc, variadic_warning)] }, .visitContinue) := by
  simp [fn_visitor_step, hexp, hvar]

/-- An exported non-variadic function with a non-C calling convention:
subtree skipped after exactly one warning. -/
theorem fn_visitor_step_callconv {p : ParseH} {d : FnDecl} (loc : SrcLoc)
    (hexp : is_storage_class_export d.storage_class = true) (hvar : d.variadic = false)
    (hcc : d.calling_conv ≠ CallingConv.c) :
    fn_visitor_step p (.functionDecl d) loc =
      .ok ({ p with
             location := loc,
             warnings := p.warnings ++ [(loc, calling_conv_warning)] }, .visitContinue) := by
  simp [fn_visitor_step, hexp, hvar, hcc]

/-- The state after an accepted function declaration: the previous current
function is finalized and a fresh record with unset argument names and
reset parameter index becomes current. -/
def begin_fn_state (p : ParseH) (d : FnDecl) (rt : List Char)
    (arg_zs : List (List Char)) : ParseH :=
  { end_fn p with
    cur_fn := some { name := d.name, return_type := rt,
                     args := arg_zs.map (fun z => ((none : Option (List Char)), z)) },
    arg_index := 0 }

/-- An accepted function declaration whose types all classify: the visitor
ends the previous function, begins a new one and recurses into the
children. -/
theorem fn_visitor_step_accepted {p : ParseH} {d : FnDecl} {rt : List Char}
    {arg_zs : List (List Char)} (loc : SrcLoc)
    (hexp : is_storage_class_export d.storage_class = true) (hvar : d.variadic = false)
    (hcc : d.calling_conv = CallingConv.c) (hrt : to_zig_type d.result_type = some rt)
    (hcl : classify_list d.arg_types = some arg_zs) :
    fn_visitor_step p (.functionDecl d) loc =
      .ok (begin_fn_state { p with location := loc } d rt arg_zs, .visitRecurse) := by
  simp [fn_visitor_step, hexp, hvar, hcc, hrt, hcl, begin_fn_state]

/-- The size-bounded strengthening behind the arity-safety claim: over any
well-formed forest, traversal from an invariant-respecting state never
fails an assertion, and the invariant is re-established whenever traversal
completes. -/
theorem visit_safe_aux :
    ∀ k (ns : List Node) (p : ParseH), sizeOf ns ≤ k → wf_forest ns = true →
      collector_inv p →
      (visitList p ns ≠ .error .assertFail ∧
       ∀ p', visitList p ns = .ok p' → collector_inv p') := by
  intro k
  induction k with
  | zero =>
    intro ns p hsz _ _
    exact absurd hsz (by cases ns <;> simp)
  | succ K ih =>
    intro ns p hsz hwf hinv
    cases ns with
    | nil =>
      refine ⟨by simp [visitList], ?_⟩
      intro p' h
      simp only [visitList, Except.ok.injEq] at h
      subst h
      exact hinv
    | cons n rest =>
      obtain ⟨kind, loc, ch⟩ := n
      simp only [List.cons.sizeOf_spec, Node.node.sizeOf_spec] at hsz
      have hch : sizeOf ch ≤ K := by omega
      have hrest : sizeOf rest ≤ K := by omega
      have hwfn : wf_node (.node kind loc ch) = true ∧ wf_forest rest = true := by
        simpa [wf_forest, Bool.and_eq_true] using hwf
      cases kind with
      | parmDecl pname => exact absurd hwfn.1 (by simp [wf_node])
      | unexposedAttr =>
        rw [visitList_cons_ok (visitNode_of_continue ch
          (fn_visitor_step_pruned p loc _ (by simp)))]
        exact ih rest { p with location := loc } hrest hwfn.2 (by intro fn h; exact hinv fn h)
      | compoundStmt =>
        rw [visitList_cons_ok (visitNode_of_continue ch
          (fn_visitor_step_pruned p loc _ (by simp)))]
        exact ih rest { p with location := loc } hrest hwfn.2 (by intro fn h; exact hinv fn h)
      | fieldDecl =>
        rw [visitList_cons_ok (visitNode_of_continue ch
          (fn_visitor_step_pruned p loc _ (by simp)))]
        exact ih rest { p with location := loc } hrest hwfn.2 (by intro fn h; exact hinv fn h)
      | typedefDecl =>
        rw [visitList_cons_ok (visitNode_of_continue ch
          (fn_visitor_step_pruned p loc _ (by simp)))]
        exact ih rest { p with location := loc } hrest hwfn.2 (by intro fn h; exact hinv fn h)
      | otherKind =>
        have hstep : fn_visitor_step p .otherKind loc =
            .ok ({ p with location := loc }, .visitRecurse) := by
          simp [fn_visitor_step]
        have hnode := visitNode_of_recurse ch hstep
        have hwfch : wf_forest ch = true := by simpa [wf_node] using hwfn.1
        have hrec := ih ch { p with location := loc } hch hwfch
          (by intro fn h; exact hinv fn h)
        cases hres : visitList { p with location := loc } ch with
        | error e =>
          have hne : e ≠ .assertFail := by
            intro he
            subst he
            exact hrec.1 hres
          have hall : visitList p (.node .otherKind loc ch :: rest) = .error e :=
            visitList_cons_error (by rw [hnode, hres])
          refine ⟨by rw [hall]; simp [hne], ?_⟩
          intro p' h
          rw [hall] at h
          simp at h
        | ok p1 =>
          have hvn : visitNode p (.node .otherKind loc ch) = .ok p1 := by
            rw [hnode, hres]
          rw [visitList_cons_ok hvn]
          exact ih rest p1 hrest hwfn.2 (hrec.2 p1 hres)
      | functionDecl d =>
        cases hexp : is_storage_class_export d.storage_class with
        | false =>
          rw [visitList_cons_ok (visitNode_of_continue ch
            (fn_visitor_step_not_export loc hexp))]
          exact ih rest { p with location := loc } hrest hwfn.2
            (by intro fn h; exact hinv fn h)
        | true =>
        cases hvar : d.variadic with
        | true =>
          rw [visitList_cons_ok (visitNode_of_continue ch
            (fn_visitor_step_variadic loc hexp hvar))]
          exact ih rest _ hrest hwfn.2 (by intro fn h; exact hinv fn h)
        | false =>
        by_cases hcc : d.calling_conv = CallingConv.c
        case neg =>
          rw [visitList_cons_ok (visitNode_of_continue ch
            (fn_visitor_step_callconv loc hexp hvar hcc))]
          exact ih rest _ hrest hwfn.2 (by intro fn h; exact hinv fn h)
        case pos =>
        cases hrt : to_zig_type d.result_type with
        | none =>
          have hstep : fn_visitor_step p (.functionDecl d) loc = .error .classifyPanic := by
            simp [fn_visitor_step, hexp, hvar, hcc, hrt]
          have hall : visitList p (.node (.functionDecl d) loc ch :: rest) =
              .error .classifyPanic :=
            visitList_cons_error (visitNode_of_error ch hstep)
          refine ⟨by rw [hall]; simp, ?_⟩
          intro p' h
          rw [hall] at h
          simp at h
        | some rt =>
        cases hcl : classify_list d.arg_types with
        | none =>
          have hstep : fn_visitor_step p (.functionDecl d) loc = .error .classifyPanic := by
            simp [fn_visitor_step, hexp, hvar, hcc, hrt, hcl]
          have hall : visitList p (.node (.functionDecl d) loc ch :: rest) =
              .error .classifyPanic :=
            visitList_cons_error (visitNode_of_error ch hstep)
          refine ⟨by rw [hall]; simp, ?_⟩
          intro p' h
          rw [hall] at h
          simp at h
        | some arg_zs =>
          have hstep := fn_visitor_step_accepted (p := p) loc hexp hvar hcc hrt hcl
          have hnode := visitNode_of_recurse ch hstep
          have hcount : count_parms ch = d.arg_types.length ∧ ch.all fn_child_ok = true := by
            have := hwfn.1
            simp only [wf_node, Bool.and_eq_true, beq_iff_eq] at this
            exact this
          have hfn_len :
              (begin_fn_state { p with location := loc } d rt arg_zs).cur_fn =
                some { name := d.name, return_type := rt,
                       args := arg_zs.map (fun z => ((none : Option (List Char)), z)) } := rfl
          obtain ⟨p3, fn', hvl, hcur3, hlen3, hidx3⟩ :=
            visit_fn_children ch (begin_fn_state { p with location := loc } d rt arg_zs)
              { name := d.name, return_type := rt,
                args := arg_zs.map (fun z => ((none : Option (List Char)), z)) }
              hfn_len hcount.2
              (by show 0 + count_parms ch = (arg_zs.map _).length
                  simp [classify_list_length hcl, hcount.1])
          have hvn : visitNode p (.node (.functionDecl d) loc ch) = .ok p3 := by
            rw [hnode, hvl]
          rw [visitList_cons_ok hvn]
          refine ih rest p3 hrest hwfn.2 ?_
          intro fng hg
          rw [hcur3] at hg
          have hfg : fn' = fng := by
            simpa using hg
          rw [hidx3, ← hlen3, hfg]

/-- C3: a function-declaration event whose storage class is not one of
none/extern/auto is skipped with no diagnostic and no Fn entry; an exported
variadic function, or one with a non-C calling convention, is skipped with
exactly one location-tagged warning and no Fn entry, and traversal
continues with the subsequent declarations. -/
theorem fn_decl_filtering (p : ParseH) (d₁ d₂ d₃ : FnDecl) (loc : SrcLoc)
    (ch rest : List Node)
    (h₁ : is_storage_class_export d₁.storage_class = false)
    (h₂e : is_storage_class_export d₂.storage_class = true) (h₂v : d₂.variadic = true)
    (h₃e : is_storage_class_export d₃.storage_class = true) (h₃v : d₃.variadic = false)
    (h₃c : d₃.calling_conv ≠ CallingConv.c) :
    fn_visitor_step p (.functionDecl d₁) loc =
      .ok ({ p with location := loc }, .visitContinue) ∧
    fn_visitor_step p (.functionDecl d₂) loc =
      .ok ({ p with
             location := loc,
             warnings := p.warnings ++ [(loc, variadic_warning)] }, .visitContinue) ∧
    fn_visitor_step p (.functionDecl d₃) loc =
      .ok ({ p with
             location := loc,
             warnings := p.warnings ++ [(loc, calling_conv_warning)] }, .visitContinue) ∧
    visitList p (.node (.functionDecl d₂) loc ch :: rest) =
      visitList { p with
                  location := loc,
                  warnings := p.warnings ++ [(loc, variadic_warning)] } rest :=
  ⟨fn_visitor_step_not_export loc h₁,
   fn_visitor_step_variadic loc h₂e h₂v,
   fn_visitor_step_callconv loc h₃e h₃v h₃c,
   visitList_cons_ok (visitNode_of_continue ch
     (fn_visitor_step_variadic loc h₂e h₂v))⟩

/-- A static function declaration, skipped without diagnostic. -/
def fn_static_example : FnDecl :=
  { name := "f1".data, storage_class := .scStatic, variadic := false,
    calling_conv := .c, result_type := .void, arg_types := [] }

/-- A variadic exported function declaration, skipped with one warning. -/
def fn_variadic_example : FnDecl :=
  { name := "f2".data, storage_class := .scNone, variadic := true,
    calling_conv := .c, result_type := .void, arg_types := [] }

/-- An exported stdcall function declaration, skipped with one warning. -/
def fn_stdcall_example : FnDecl :=
  { name := "f3".data, storage_class := .scNone, variadic := false,
    calling_conv := .x86Stdcall, result_type := .void, arg_types := [] }

/-- A concrete source location for the collector examples. -/
def loc_example : SrcLoc := { file := "test.h".data, line := 3, column := 1 }

/-- C3 witness: the three filter branches applied at concrete
declarations. -/
theorem fn_decl_filtering_witness :
    fn_visitor_step init_state (.functionDecl fn_variadic_example) loc_example =
      .ok ({ init_state with
             location := loc_example,
             warnings := init_state.warnings ++ [(loc_example, variadic_warning)] },
        .visitContinue) :=
  (fn_decl_filtering init_state fn_static_example fn_variadic_example fn_stdcall_example
    loc_example [] [] rfl rfl rfl rfl rfl (by decide)).2.1

/-- C5: a parameter-declaration event with a current function and
unexhausted arity records the name at the current index and advances the
index by one; over any well-formed depth-first cursor forest started from
an invariant-respecting state the two assertions of the parameter branch
never fire; and an accepted function declaration with N parameters either
aborts inside classification or completes its subtree with exactly N
parameter-name events accepted. -/
theorem parm_arity_safety :
    (∀ (p : ParseH) (fn : CurFn) (pname : List Char) (loc : SrcLoc)
       (hcur : p.cur_fn = some fn) (h : p.arg_index < fn.args.length),
       fn_visitor_step p (.parmDecl pname) loc =
         .ok ({ p with
                location := loc,
                cur_fn := some (record_parm p fn pname h),
                arg_index := p.arg_index + 1 }, .visitContinue)) ∧
    (∀ (roots : List Node) (p : ParseH), wf_forest roots = true → collector_inv p →
       visitList p roots ≠ .error .assertFail) ∧
    (∀ (d : FnDecl) (loc : SrcLoc) (ch : List Node) (p : ParseH),
       wf_node (.node (.functionDecl d) loc ch) = true →
       is_storage_class_export d.storage_class = true → d.variadic = false →
       d.calling_conv = CallingConv.c →
       visitNode p (.node (.functionDecl d) loc ch) = .error .classifyPanic ∨
       ∃ p' fn', visitNode p (.node (.functionDecl d) loc ch) = .ok p' ∧
         p'.cur_fn = some fn' ∧ fn'.args.length = d.arg_types.length ∧
         p'.arg_index = d.arg_types.length) := by
  refine ⟨fun p fn pname loc hcur h => fn_visitor_step_parm pname loc hcur h, ?_, ?_⟩
  · intro roots p hwf hinv
    exact (visit_safe_aux (sizeOf roots) roots p (Nat.le_refl _) hwf hinv).1
  · intro d loc ch p hwf hexp hvar hcc
    cases hrt : to_zig_type d.result_type with
    | none =>
      exact Or.inl (visitNode_of_error ch
        (by simp [fn_visitor_step, hexp, hvar, hcc, hrt]))
    | some rt =>
      cases hcl : classify_list d.arg_types with
      | none =>
        exact Or.inl (visitNode_of_error ch
          (by simp [fn_visitor_step, hexp, hvar, hcc, hrt, hcl]))
      | some arg_zs =>
        right
        have hstep := fn_visitor_step_accepted (p := p) loc hexp hvar hcc hrt hcl
        have hnode := visitNode_of_recurse ch hstep
        have hcount : count_parms ch = d.arg_types.length ∧ ch.all fn_child_ok = true := by
          simp only [wf_node, Bool.and_eq_true, beq_iff_eq] at hwf
          exact hwf
        have hlen_new :
            (arg_zs.map (fun z => ((none : Option (List Char)), z))).length =
              d.arg_types.length := by
          simp [classify_list_length hcl]
        obtain ⟨p3, fn', hvl, hcur3, hlen3, hidx3⟩ :=
          visit_fn_children ch (begin_fn_state { p with location := loc } d rt arg_zs)
            { name := d.name, return_type := rt,
              args := arg_zs.map (fun z => ((none : Option (List Char)), z)) }
            rfl hcount.2
            (by show 0 + count_parms ch = (arg_zs.map _).length
                simp [classify_list_length hcl, hcount.1])
        refine ⟨p3, fn', by rw [hnode, hvl], hcur3, ?_, ?_⟩
        · rw [hlen3]
          exact hlen_new
        · rw [hidx3]
          exact hlen_new

/-- A well-formed exported one-parameter function declaration. -/
def demo_fn_decl : FnDecl :=
  { name := "f".data, storage_class := .scNone, variadic := false,
    calling_conv := .c, result_type := .void, arg_types := [.int] }

/-- A well-formed cursor forest: one function with its one parameter. -/
def demo_forest : List Node :=
  [.node (.functionDecl demo_fn_decl) loc_example
    [.node (.parmDecl "x".data) loc_example []]]

/-- C5 witness: assertion safety on a concrete well-formed forest from the
initial state. -/
theorem parm_arity_safety_witness :
    visitList init_state demo_forest ≠ .error .assertFail :=
  parm_arity_safety.2.1 demo_forest init_state (by rfl)
    (by intro fn h; simp [init_state] at h)

end Parseh
